import Mathlib

/-!
Verification of the hycast core against its sources.

Shallow embedding of:
  * the big-endian codec primitives (spec 4.1; `Codec.h` is not in the
    source tree, so the primitives are modelled from the spec),
  * `ChunkInfo` (`src/main/prod/ChunkInfo.cpp`),
  * `ProdIndex` / `VersionMsg` serialization,
  * `ProdInfo` (its implementation file is not in the source tree;
    modelled from the spec),
  * the peer receive loop and handshake (`src/main/comms/p2p/Peer.cpp`),
  * the multicast receive loop (`src/main/comms/mcast/McastReceiver.cpp`),
  * the product store (`ProdStore.h` declares the interface; the
    implementation is not in the source tree and is modelled from the spec).

Machine integers are modelled as `Nat` with explicit `% 2^32` where the
C++ `uint32_t` arithmetic can wrap.
-/

namespace hycast

/-! ## Codec primitives (spec 4.1: network byte order, length-prefixed strings) -/

/-- Big-endian 16-bit encoding of `n % 2^16` as two bytes. -/
def encode16 (n : Nat) : List Nat :=
  [n / 256 % 256, n % 256]

/-- Big-endian 32-bit encoding of `n % 2^32` as four bytes. -/
def encode32 (n : Nat) : List Nat :=
  [n / 16777216 % 256, n / 65536 % 256, n / 256 % 256, n % 256]

/-- Big-endian 16-bit decoding: two bytes, then the remaining input. -/
def decode16 : List Nat → Option (Nat × List Nat)
  | b1 :: b0 :: rest => some (b1 * 256 + b0, rest)
  | _ => none

/-- Big-endian 32-bit decoding: four bytes, then the remaining input. -/
def decode32 : List Nat → Option (Nat × List Nat)
  | b3 :: b2 :: b1 :: b0 :: rest =>
      some (b3 * 16777216 + b2 * 65536 + b1 * 256 + b0, rest)
  | _ => none

/-- Length-prefixed string encoding: 16-bit length then the raw bytes. -/
def encodeString (s : List Nat) : List Nat :=
  encode16 s.length ++ s

/-- Length-prefixed string decoding. -/
def decodeString (bs : List Nat) : Option (List Nat × List Nat) :=
  match decode16 bs with
  | some (len, rest) =>
      if len ≤ rest.length then some (rest.take len, rest.drop len) else none
  | none => none

theorem decode16_encode16 (n : Nat) (h : n < 65536) (r : List Nat) :
    decode16 (encode16 n ++ r) = some (n, r) := by
  simp only [encode16, decode16, List.cons_append, List.nil_append,
    Option.some.injEq, Prod.mk.injEq]
  exact ⟨by omega, trivial⟩

theorem decode32_encode32 (n : Nat) (h : n < 4294967296) (r : List Nat) :
    decode32 (encode32 n ++ r) = some (n, r) := by
  simp only [encode32, decode32, List.cons_append, List.nil_append,
    Option.some.injEq, Prod.mk.injEq]
  exact ⟨by omega, trivial⟩

theorem decodeString_encodeString (s : List Nat) (h : s.length < 65536)
    (r : List Nat) :
    decodeString (encodeString s ++ r) = some (s, r) := by
  simp only [encodeString, List.append_assoc]
  simp only [decodeString, decode16_encode16 s.length h (s ++ r)]
  have hle : s.length ≤ (s ++ r).length := by
    simp [List.length_append]
  simp [hle, List.take_left, List.drop_left]

/-! ## ChunkInfo (`src/main/prod/ChunkInfo.cpp`)

`ProdSize` and `ChunkIndex` are `uint32_t`, `ChunkSize` is `uint16_t`
(spec section 3).  The canonical chunk size is a process-wide setting
(`static ChunkSize canonSize = 32768 - 8`, settable but never zero); it is
threaded through the embedding as an explicit parameter `canon`. -/

/-- Default canonical chunk size: `32768 - 8` (`ChunkInfo.cpp` line 21). -/
def defaultCanonSize : Nat := 32768 - 8

/-- The number of chunks as the `ChunkInfo` constructor computes it:
`(prodSize + getCanonSize() - 1) / getCanonSize()` in `uint32_t`
arithmetic, which wraps modulo `2^32`. -/
def numChunks (prodSize canon : Nat) : Nat :=
  ((prodSize + canon - 1) % 4294967296) / canon

/-- The chunk count as the spec words it: `ceil(ProdSize / canonicalChunkSize)`
(exact arithmetic, no wraparound). -/
def specChunkCount (prodSize canon : Nat) : Nat :=
  if prodSize % canon = 0 then prodSize / canon else prodSize / canon + 1

structure ChunkInfo where
  prodIndex : Nat
  prodSize : Nat
  chunkIndex : Nat
  deriving DecidableEq, Repr

/-- The validating constructor `ChunkInfo::ChunkInfo(prodIndex, prodSize,
chunkIndex)`: throws `InvalidArgument` (here `none`) when
`chunkIndex && chunkIndex >= numChunks`. -/
def mkChunkInfo (canon : Nat) (prodIndex prodSize chunkIndex : Nat) :
    Option ChunkInfo :=
  if chunkIndex ≠ 0 ∧ chunkIndex ≥ numChunks prodSize canon then none
  else some ⟨prodIndex, prodSize, chunkIndex⟩

/-- Modelled from the spec: `ChunkInfo::getOffset` lives in `ChunkInfo.h`,
which is missing from the source tree.  Spec section 3: "byte offset =
`ChunkIndex × canonicalChunkSize`". -/
def getOffset (canon : Nat) (chunkIndex : Nat) : Nat :=
  chunkIndex * canon

/-- `ChunkInfo::getSize(prodSize, chunkIndex)`: throws `InvalidArgument`
(here `none`) when the chunk offset is at or past the product size,
otherwise returns `min(canonSize, prodSize - offset)`. -/
def getSize (canon : Nat) (prodSize chunkIndex : Nat) : Option Nat :=
  if getOffset canon chunkIndex ≥ prodSize then none
  else some (if canon < prodSize - getOffset canon chunkIndex then canon
             else prodSize - getOffset canon chunkIndex)

/-- `ChunkInfo::serialize`: ProdIndex (4 bytes), ProdSize (4), ChunkIndex (4).
The protocol-version argument is threaded through but ignored by the codec. -/
def ChunkInfo.serialize (version : Nat) (ci : ChunkInfo) : List Nat :=
  encode32 ci.prodIndex ++ encode32 ci.prodSize ++ encode32 ci.chunkIndex

/-- `ChunkInfo::deserialize`: decodes the three fields and then runs them
through the validating constructor. -/
def ChunkInfo.deserialize (canon version : Nat) (bs : List Nat) :
    Option (ChunkInfo × List Nat) :=
  match decode32 bs with
  | none => none
  | some (prodIndex, bs1) =>
    match decode32 bs1 with
    | none => none
    | some (prodSize, bs2) =>
      match decode32 bs2 with
      | none => none
      | some (chunkIndex, bs3) =>
        match mkChunkInfo canon prodIndex prodSize chunkIndex with
        | none => none
        | some ci => some (ci, bs3)

/-! ## ProdIndex and VersionMsg

`ProdIndex.h` / `VersionMsg.h` are not in the source tree; serialized form
modelled from the spec (section 6): ProdIndex is a `uint32`, VersionMsg is a
`uint32` version, both big-endian.  `ProdIndex_test.cpp` confirms the
4-byte serial size. -/

/-- `ProdIndex::serialize`: a single big-endian `uint32`. -/
def ProdIndex.serialize (version : Nat) (idx : Nat) : List Nat :=
  encode32 idx

/-- `ProdIndex::deserialize`. -/
def ProdIndex.deserialize (version : Nat) (bs : List Nat) :
    Option (Nat × List Nat) :=
  decode32 bs

/-- `VersionMsg::serialize`: a single big-endian `uint32` version. -/
def VersionMsg.serialize (version : Nat) (v : Nat) : List Nat :=
  encode32 v

/-- `VersionMsg::deserialize`. -/
def VersionMsg.deserialize (version : Nat) (bs : List Nat) :
    Option (Nat × List Nat) :=
  decode32 bs

/-! ## ProdInfo

`ProdInfo.cpp` is not in the source tree.  Modelled from the spec
(sections 3 and 4.1): ProdInfo = (ProdIndex, name ≤ 2^16-1 bytes, ProdSize,
canonical ChunkSize of this product); serialized as name (2+n bytes) then
ProdIndex (4) then ProdSize (4) then canonicalChunkSize (2). -/

structure ProdInfo where
  prodIndex : Nat
  name : List Nat
  prodSize : Nat
  chunkSize : Nat
  deriving DecidableEq, Repr

/-- Modelled from the spec: the chunk count of a product equals
`ceil(ProdSize / canonicalChunkSize)`; 0-byte products have 0 chunks. -/
def ProdInfo.chunkCount (p : ProdInfo) : Nat :=
  specChunkCount p.prodSize p.chunkSize

/-- Modelled from the spec: ProdInfo wire format (spec 4.1). -/
def ProdInfo.serialize (version : Nat) (p : ProdInfo) : List Nat :=
  encodeString p.name ++ encode32 p.prodIndex ++ encode32 p.prodSize ++
    encode16 p.chunkSize

/-- Modelled from the spec: ProdInfo decoding, inverse of the wire format. -/
def ProdInfo.deserialize (version : Nat) (bs : List Nat) :
    Option (ProdInfo × List Nat) :=
  match decodeString bs with
  | none => none
  | some (name, bs1) =>
    match decode32 bs1 with
    | none => none
    | some (prodIndex, bs2) =>
      match decode32 bs2 with
      | none => none
      | some (prodSize, bs3) =>
        match decode16 bs3 with
        | none => none
        | some (chunkSize, bs4) => some (⟨prodIndex, name, prodSize, chunkSize⟩, bs4)

/-! ## LatentChunk

`Chunk.h` / `Chunk.cpp` are not in the source tree.  Modelled from the spec
(section 3): a LatentChunk is ChunkInfo plus a single-use pull handle bound
to the transport; `drainData` or `discard` consume the handle, after which
the `hasData` probe returns false. -/

structure LatentChunk where
  info : ChunkInfo
  data : List Nat
  hasData : Bool
  deriving DecidableEq, Repr

/-- Modelled from the spec: draining returns the payload and empties the
single-use handle. -/
def LatentChunk.drainData (c : LatentChunk) : List Nat × LatentChunk :=
  (c.data, { c with hasData := false })

/-- Modelled from the spec: discarding consumes the payload and empties the
single-use handle. -/
def LatentChunk.discardData (c : LatentChunk) : LatentChunk :=
  { c with hasData := false }

/-- Modelled from the spec: `LatentChunk::deserialize` decodes the ChunkInfo
metadata and leaves the remaining payload bytes latent on the wire
(`hasData` is true until the recipient drains or discards). -/
def LatentChunk.deserialize (canon version : Nat) (bs : List Nat) :
    Option LatentChunk :=
  match ChunkInfo.deserialize canon version bs with
  | none => none
  | some (ci, rest) => some ⟨ci, rest, true⟩

/-! ## Peer (`src/main/comms/p2p/Peer.cpp`) -/

/-- The `SctpStreamId` enumeration, `Peer.cpp` lines 33-41. -/
def VERSION_STREAM_ID : Nat := 0
def PROD_NOTICE_STREAM_ID : Nat := 1
def CHUNK_NOTICE_STREAM_ID : Nat := 2
def PROD_REQ_STREAM_ID : Nat := 3
def CHUNK_REQ_STREAM_ID : Nat := 4
def CHUNK_STREAM_ID : Nat := 5
def NUM_STREAM_IDS : Nat := 6

/-- `Peer::Impl::getNumStreams()` returns `NUM_STREAM_IDS`; the socket to a
remote peer is opened with `SctpSock{peerAddr, getNumStreams()}` streams. -/
def getNumStreams : Nat := NUM_STREAM_IDS

/-- One SCTP message: stream id plus raw payload bytes.  `sock.getSize()`
on the head message is the payload length; it is `0` iff the remote peer
has closed the socket, which the trace models by ending or by an
explicit empty-payload entry. -/
structure SctpMsg where
  streamId : Nat
  payload : List Nat
  deriving DecidableEq, Repr

inductive PeerError where
  | decodeError
  | logicError
  deriving DecidableEq, Repr

/-- What the receive loop hands to the upcall (`PeerMsgRcvr`). -/
inductive PeerEvent where
  | noticeProd (p : ProdInfo)
  | noticeChunk (c : ChunkInfo)
  | requestProd (i : Nat)
  | requestChunk (c : ChunkInfo)
  | data (c : LatentChunk)
  | discarded
  deriving DecidableEq, Repr

/-- `Peer::Impl::runReceiver` (`Peer.cpp` lines 182-225) over a finite
trace of incoming messages.  `rcvr` models the upcall's `recvData`: it
returns the state of the latent chunk after the upcall returns (the other
upcalls cannot affect the loop).  The loop exits normally when
`sock.getSize()` returns 0 (empty payload, or end of trace); a chunk left
undrained raises `LogicError`; decoding failures surface as errors. -/
def runReceiver (canon version : Nat) (rcvr : LatentChunk → LatentChunk) :
    List SctpMsg → Except PeerError (List PeerEvent)
  | [] => .ok []
  | msg :: rest =>
    if msg.payload.length = 0 then .ok []
    else if msg.streamId = PROD_NOTICE_STREAM_ID then
      match ProdInfo.deserialize version msg.payload with
      | none => .error .decodeError
      | some (p, _) =>
          (runReceiver canon version rcvr rest).map (PeerEvent.noticeProd p :: ·)
    else if msg.streamId = CHUNK_NOTICE_STREAM_ID then
      match ChunkInfo.deserialize canon version msg.payload with
      | none => .error .decodeError
      | some (c, _) =>
          (runReceiver canon version rcvr rest).map (PeerEvent.noticeChunk c :: ·)
    else if msg.streamId = PROD_REQ_STREAM_ID then
      match ProdIndex.deserialize version msg.payload with
      | none => .error .decodeError
      | some (i, _) =>
          (runReceiver canon version rcvr rest).map (PeerEvent.requestProd i :: ·)
    else if msg.streamId = CHUNK_REQ_STREAM_ID then
      match ChunkInfo.deserialize canon version msg.payload with
      | none => .error .decodeError
      | some (c, _) =>
          (runReceiver canon version rcvr rest).map (PeerEvent.requestChunk c :: ·)
    else if msg.streamId = CHUNK_STREAM_ID then
      match LatentChunk.deserialize canon version msg.payload with
      | none => .error .decodeError
      | some chunk =>
          let chunk2 := rcvr chunk
          if chunk2.hasData then .error .logicError
          else (runReceiver canon version rcvr rest).map (PeerEvent.data chunk :: ·)
    else
      (runReceiver canon version rcvr rest).map (PeerEvent.discarded :: ·)

/-! ### Handshake (`Peer.cpp` lines 122-141 and 83-88) -/

inductive HandshakeError where
  /-- `std::logic_error` from `getVersion` when the head message is not on
  the version stream. -/
  | notVersionMsg
  /-- Decoding the version message failed. -/
  | decodeError
  /-- `LogicError("Remote peer uses unsupported protocol version")`,
  `Peer.cpp` line 138. -/
  | unsupportedVersion (v : Nat)
  deriving DecidableEq, Repr

/-- The constructor first sends the local version on the version stream:
`VersionMsg msg(version); versionChan.send(msg)`. -/
def handshakeSends (localVersion : Nat) : List (Nat × List Nat) :=
  [(VERSION_STREAM_ID, VersionMsg.serialize localVersion localVersion)]

/-- The receiving half of the handshake: `getVersion()` checks that the
head message is on `VERSION_STREAM_ID` and decodes it, then the
constructor compares the received version with the local one. -/
def handshakeRecv (localVersion : Nat) (head : SctpMsg) :
    Except HandshakeError Unit :=
  if head.streamId ≠ VERSION_STREAM_ID then .error .notVersionMsg
  else
    match VersionMsg.deserialize localVersion head.payload with
    | none => .error .decodeError
    | some (vers, _) =>
      if vers ≠ localVersion then .error (.unsupportedVersion vers)
      else .ok ()

/-! ## Multicast receiver (`src/main/comms/mcast/McastReceiver.cpp`) -/

/-- Modelled from the spec: `McastSender::prodInfoMsgId` (`McastSender.h`
is not in the source tree; spec section 6 gives message id `0x01`). -/
def prodInfoMsgId : Nat := 1

/-- Modelled from the spec: `McastSender::chunkMsgId` (spec section 6
gives message id `0x02`). -/
def chunkMsgId : Nat := 2

inductive McastError where
  /-- `decoder.fill`/`decode` ran past the end of the datagram. -/
  | shortMessage
  /-- `LOGIC_ERROR("Latent chunk-of-data not drained")`, line 105. -/
  | logicError
  /-- `RUNTIME_ERROR("Invalid message type")`, line 109. -/
  | runtimeError
  deriving DecidableEq, Repr

inductive McastEvent where
  | prodInfo (p : ProdInfo)
  | chunk (c : LatentChunk)
  deriving DecidableEq, Repr

/-- `McastReceiver::Impl::operator()` (lines 81-114) over a finite trace of
datagrams.  Each datagram starts with a 1-byte message id; id 1 is ProdInfo,
id 2 is a latent chunk (which the upcall must drain), and any other id
raises `RuntimeError`. -/
def runMcastReceiver (canon version : Nat) (rcvr : LatentChunk → LatentChunk) :
    List (List Nat) → Except McastError (List McastEvent)
  | [] => .ok []
  | datagram :: rest =>
    match datagram with
    | [] => .error .shortMessage
    | msgId :: body =>
      if msgId = prodInfoMsgId then
        match ProdInfo.deserialize version body with
        | none => .error .shortMessage
        | some (p, _) =>
            (runMcastReceiver canon version rcvr rest).map (McastEvent.prodInfo p :: ·)
      else if msgId = chunkMsgId then
        match LatentChunk.deserialize canon version body with
        | none => .error .shortMessage
        | some chunk =>
            let chunk2 := rcvr chunk
            if chunk2.hasData then .error .logicError
            else (runMcastReceiver canon version rcvr rest).map (McastEvent.chunk chunk :: ·)
      else .error .runtimeError

/-! ## Product store

`ProdStore.h` (in the source tree) declares the interface and the
`AddStatus` bit flags; the implementation (`ProdStore.cpp`,
`ProductImpl.cpp`) is not in the source tree.  The operations are
modelled from the spec, sections 3 (ProductEntry), 4.5 and 7. -/

/-- `ProdStore::AddStatus`, bit-for-bit from `ProdStore.h` lines 52-66. -/
structure AddStatus where
  status : Nat
  deriving DecidableEq, Repr

def AddStatus.IS_COMPLETE : Nat := 1
def AddStatus.IS_NEW : Nat := 2
def AddStatus.IS_DUPLICATE : Nat := 4

/-- The default-constructed status (`status{0}`). -/
def AddStatus.init : AddStatus := ⟨0⟩

def AddStatus.setNew (a : AddStatus) : AddStatus := ⟨a.status ||| AddStatus.IS_NEW⟩

def AddStatus.setComplete (a : AddStatus) : AddStatus :=
  ⟨a.status ||| AddStatus.IS_COMPLETE⟩

def AddStatus.setDuplicate (a : AddStatus) : AddStatus :=
  ⟨a.status ||| AddStatus.IS_DUPLICATE⟩

def AddStatus.isNew (a : AddStatus) : Bool :=
  a.status &&& AddStatus.IS_NEW ≠ 0

def AddStatus.isComplete (a : AddStatus) : Bool :=
  a.status &&& AddStatus.IS_COMPLETE ≠ 0

def AddStatus.isDuplicate (a : AddStatus) : Bool :=
  a.status &&& AddStatus.IS_DUPLICATE ≠ 0

/-- Modelled from the spec: a ProductEntry (spec section 3):
`{ info : Option ProdInfo, present bitmap + buffered chunk bytes
(`chunkData`), complete : bool }`.  The present bit for chunk `j` is
`(chunkData j).isSome`; the buffer content is the stored bytes. -/
structure ProdEntry where
  info : Option ProdInfo
  chunkData : Nat → Option (List Nat)
  complete : Bool

/-- Modelled from the spec: the store is a mapping ProdIndex → ProductEntry. -/
def ProdStore := Nat → Option ProdEntry

def ProdStore.update (s : ProdStore) (idx : Nat) (e : ProdEntry) : ProdStore :=
  fun j => if j = idx then some e else s j

/-- The completion test (spec 4.5): the bitmap is all-ones over
`[0, chunkCount)`. -/
def allChunksPresent (info : ProdInfo) (cd : Nat → Option (List Nat)) : Bool :=
  (List.range info.chunkCount).all (fun i => (cd i).isSome)

/-- Modelled from the spec: `ProdStore::add(const ProdInfo&, Product&)`
(`ProdStore.h` lines 106-117).  Creates the entry if absent; merges into an
existing chunks-only entry and may transition it to complete; reports a
duplicate if the entry already has its info.  The `Option ProdEntry`
result is the `prod` out-parameter, set iff the status is complete. -/
def ProdStore.addProdInfo (s : ProdStore) (info : ProdInfo) :
    ProdStore × AddStatus × Option ProdEntry :=
  match s info.prodIndex with
  | none =>
      let complete := allChunksPresent info (fun _ => none)
      let e : ProdEntry := ⟨some info, fun _ => none, complete⟩
      let st := if complete then AddStatus.init.setNew.setComplete
                else AddStatus.init.setNew
      (s.update info.prodIndex e, st, if complete then some e else none)
  | some e =>
      match e.info with
      | some _ =>
          let st := if e.complete then AddStatus.init.setDuplicate.setComplete
                    else AddStatus.init.setDuplicate
          (s, st, if e.complete then some e else none)
      | none =>
          let complete := allChunksPresent info e.chunkData
          let e2 : ProdEntry := ⟨some info, e.chunkData, complete⟩
          let st := if complete then AddStatus.init.setComplete else AddStatus.init
          (s.update info.prodIndex e2, st, if complete then some e2 else none)

/-- Modelled from the spec: `ProdStore::add(LatentChunk&, Product&)`
(`ProdStore.h` lines 119-130).  Creates the entry if absent (early chunks
are buffered before the ProdInfo arrives, spec section 9); never
overwrites an existing chunk (duplicates are discarded and reported);
out-of-range chunks recover locally with a status flag and no exception
(spec section 7).  The returned LatentChunk is the handle's state after
the call: always drained or discarded. -/
def ProdStore.addChunk (s : ProdStore) (ch : LatentChunk) :
    ProdStore × AddStatus × Option ProdEntry × LatentChunk :=
  let idx := ch.info.prodIndex
  let i := ch.info.chunkIndex
  match s idx with
  | none =>
      let drained := ch.drainData
      let e : ProdEntry := ⟨none, fun j => if j = i then some drained.1 else none, false⟩
      (s.update idx e, AddStatus.init.setNew, none, drained.2)
  | some e =>
      if (e.chunkData i).isSome then
        let st := if e.complete then AddStatus.init.setDuplicate.setComplete
                  else AddStatus.init.setDuplicate
        (s, st, if e.complete then some e else none, ch.discardData)
      else
        match e.info with
        | some info =>
            if i < info.chunkCount then
              let drained := ch.drainData
              let cd2 := fun j => if j = i then some drained.1 else e.chunkData j
              let complete := allChunksPresent info cd2
              let e2 : ProdEntry := ⟨some info, cd2, complete⟩
              let st := if complete then AddStatus.init.setComplete else AddStatus.init
              (s.update idx e2, st, if complete then some e2 else none, drained.2)
            else
              (s, AddStatus.init, none, ch.discardData)
        | none =>
            let drained := ch.drainData
            let cd2 := fun j => if j = i then some drained.1 else e.chunkData j
            let e2 : ProdEntry := ⟨none, cd2, false⟩
            (s.update idx e2, AddStatus.init, none, drained.2)

/-- `ProdStore::haveChunk` (`ProdStore.h` lines 150-156): true iff the
chunk's bit is set. -/
def ProdStore.haveChunk (s : ProdStore) (ci : ChunkInfo) : Bool :=
  match s ci.prodIndex with
  | none => false
  | some e => (e.chunkData ci.chunkIndex).isSome

/-! ### Sequences of additions for one product (claim C2) -/

/-- One addition for a product: its ProdInfo or one of its chunks. -/
inductive StoreOp where
  | putInfo
  | putChunk (i : Nat)
  deriving DecidableEq, Repr

/-- The full set of additions for a product with `n` chunks. -/
def fullOps (n : Nat) : List StoreOp :=
  StoreOp.putInfo :: (List.range n).map StoreOp.putChunk

/-- The latent chunk carrying chunk `i` of product `info` with payload
`data i`. -/
def mkChunk (info : ProdInfo) (data : Nat → List Nat) (i : Nat) : LatentChunk :=
  ⟨⟨info.prodIndex, info.prodSize, i⟩, data i, true⟩

/-- Apply one addition to the store, returning the new store, the status,
and the `prod` out-parameter. -/
def applyOp (info : ProdInfo) (data : Nat → List Nat) (s : ProdStore) :
    StoreOp → ProdStore × AddStatus × Option ProdEntry
  | .putInfo => s.addProdInfo info
  | .putChunk i =>
      let r := s.addChunk (mkChunk info data i)
      (r.1, r.2.1, r.2.2.1)

/-- Apply a sequence of additions, left to right. -/
def applyOps (info : ProdInfo) (data : Nat → List Nat) (s : ProdStore) :
    List StoreOp → ProdStore
  | [] => s
  | op :: ops => applyOps info data (applyOp info data s op).1 ops

/-- Whether a set of additions contains every chunk of the product. -/
def chunksIn (info : ProdInfo) (A : List StoreOp) : Bool :=
  (List.range info.chunkCount).all (fun i => decide (StoreOp.putChunk i ∈ A))

/-- The entry a set `A` of distinct additions produces: the info iff the
info was added, chunk `j`'s bytes iff chunk `j` was added, complete iff
everything is in. -/
def entryOf (info : ProdInfo) (data : Nat → List Nat) (A : List StoreOp) :
    ProdEntry where
  info := if StoreOp.putInfo ∈ A then some info else none
  chunkData := fun j => if StoreOp.putChunk j ∈ A then some (data j) else none
  complete := decide (StoreOp.putInfo ∈ A) && chunksIn info A

/-- The store entry after a set `A` of additions: absent when nothing has
been added yet. -/
def entryState (info : ProdInfo) (data : Nat → List Nat) (A : List StoreOp) :
    Option ProdEntry :=
  if A = [] then none else some (entryOf info data A)

/-! ## Arithmetic helpers for the chunk-layout claims -/

theorem ceil_div_eq (s c : Nat) (hc : 0 < c) :
    (s + c - 1) / c = if s % c = 0 then s / c else s / c + 1 := by
  have hdm := Nat.div_add_mod s c
  have hr : s % c < c := Nat.mod_lt s hc
  by_cases h : s % c = 0
  · have e1 : s + c - 1 = (c - 1) + c * (s / c) := by omega
    rw [e1, Nat.add_mul_div_left _ _ hc, Nat.div_eq_of_lt (by omega)]
    simp [h]
  · have e2 : c * (s / c + 1) = c * (s / c) + c := Nat.mul_succ c (s / c)
    have e1 : s + c - 1 = (s % c - 1) + c * (s / c + 1) := by omega
    rw [e1, Nat.add_mul_div_left _ _ hc, Nat.div_eq_of_lt (by omega)]
    simp [h]

theorem specChunkCount_eq (s c : Nat) (hc : 0 < c) :
    specChunkCount s c = (s + c - 1) / c := by
  rw [ceil_div_eq s c hc]
  rfl

theorem specChunkCount_zero_iff (s c : Nat) (hc : 0 < c) :
    specChunkCount s c = 0 ↔ s = 0 := by
  have hdm := Nat.div_add_mod s c
  unfold specChunkCount
  by_cases h : s % c = 0
  · rw [if_pos h]
    constructor
    · intro hz
      rw [hz, Nat.mul_zero] at hdm
      omega
    · intro hz
      subst hz
      simp
  · rw [if_neg h]
    constructor
    · intro hz
      exact absurd hz (Nat.succ_ne_zero (s / c))
    · intro hz
      subst hz
      simp at h

theorem specChunkCount_mul_ge (s c : Nat) (hc : 0 < c) :
    s ≤ specChunkCount s c * c := by
  have hdm := Nat.div_add_mod s c
  have hr : s % c < c := Nat.mod_lt s hc
  unfold specChunkCount
  by_cases h : s % c = 0
  · rw [if_pos h]
    have e : s / c * c = c * (s / c) := Nat.mul_comm _ _
    omega
  · rw [if_neg h]
    have e : (s / c + 1) * c = c * (s / c) + c := by
      rw [Nat.succ_mul, Nat.mul_comm]
    omega

theorem specChunkCount_mul_lt_add (s c : Nat) (hc : 0 < c) :
    specChunkCount s c * c < s + c := by
  have hdm := Nat.div_add_mod s c
  have hr : s % c < c := Nat.mod_lt s hc
  unfold specChunkCount
  by_cases h : s % c = 0
  · rw [if_pos h]
    have e : s / c * c = c * (s / c) := Nat.mul_comm _ _
    omega
  · rw [if_neg h]
    have e : (s / c + 1) * c = c * (s / c) + c := by
      rw [Nat.succ_mul, Nat.mul_comm]
    omega

theorem specChunkCount_sub (s c : Nat) (hc : 0 < c) (h : c < s) :
    specChunkCount (s - c) c = specChunkCount s c - 1 := by
  have hdm := Nat.div_add_mod s c
  have hr : s % c < c := Nat.mod_lt s hc
  have hq : 0 < s / c := Nat.div_pos (Nat.le_of_lt h) hc
  have e2 : c * (s / c - 1) + c = c * (s / c) := by
    cases hqe : s / c with
    | zero => omega
    | succ n =>
        simp only [Nat.succ_sub_one]
        rw [Nat.mul_succ]
  have e : s - c = c * (s / c - 1) + s % c := by omega
  have hmod : (s - c) % c = s % c := by
    rw [e, Nat.mul_add_mod, Nat.mod_eq_of_lt hr]
  have hdiv : (s - c) / c = s / c - 1 := by
    rw [e, Nat.mul_add_div hc, Nat.div_eq_of_lt hr]
    omega
  unfold specChunkCount
  rw [hmod, hdiv]
  by_cases hm : s % c = 0
  · rw [if_pos hm, if_pos hm]
  · rw [if_neg hm, if_neg hm]
    omega

theorem specChunkCount_of_le (s c : Nat) (hc : 0 < c) (hs : 0 < s)
    (hle : s ≤ c) : specChunkCount s c = 1 := by
  unfold specChunkCount
  rcases Nat.lt_or_ge s c with hlt | hge
  · have hm : s % c = s := Nat.mod_eq_of_lt hlt
    have hd : s / c = 0 := Nat.div_eq_of_lt hlt
    simp only [hm, hd]
    have : ¬ s = 0 := by omega
    simp [this]
  · have hsc : s = c := by omega
    subst hsc
    simp [Nat.mod_self, Nat.div_self hc]

theorem sum_chunk_sizes (c : Nat) (hc : 0 < c) :
    ∀ k s, k = specChunkCount s c →
      (Finset.range k).sum (fun i => min c (s - i * c)) = s := by
  intro k
  induction k with
  | zero =>
      intro s hk
      have := (specChunkCount_zero_iff s c hc).mp hk.symm
      simp [this]
  | succ n ih =>
      intro s hk
      have hs : 0 < s := by
        rcases Nat.eq_zero_or_pos s with h0 | h1
        · subst h0
          rw [(specChunkCount_zero_iff 0 c hc).mpr rfl] at hk
          omega
        · exact h1
      rw [Finset.sum_range_succ']
      have hshift : ∀ i : Nat, s - (i + 1) * c = (s - c) - i * c := by
        intro i
        have : (i + 1) * c = i * c + c := Nat.succ_mul i c
        omega
      simp only [hshift]
      rcases Nat.lt_or_ge c s with hlt | hge
      · have hn : n = specChunkCount (s - c) c := by
          rw [specChunkCount_sub s c hc hlt]
          omega
        rw [ih (s - c) hn]
        have hz : (0 : Nat) * c = 0 := Nat.zero_mul c
        rw [hz]
        omega
      · have h1 : specChunkCount s c = 1 := specChunkCount_of_le s c hc hs hge
        have hn : n = 0 := by omega
        subst hn
        simp
        omega

/-! ## Claim theorems -/

/-- C10: `ChunkInfo::getSize` throws `InvalidArgument` exactly when the
chunk's byte offset `chunkIndex * canonSize` is at or past `prodSize`
(hence always for `prodSize = 0`), so whenever it returns, the offset is
strictly below `prodSize`, the subtraction cannot underflow, and the
result `min(canonSize, prodSize - offset)` is positive. -/
theorem getSize_offset_guard (canon prodSize chunkIndex : Nat)
    (hc : 0 < canon) :
    (getSize canon prodSize chunkIndex = none ↔
        prodSize ≤ chunkIndex * canon) ∧
    (prodSize = 0 → getSize canon prodSize chunkIndex = none) ∧
    (∀ r, getSize canon prodSize chunkIndex = some r →
        chunkIndex * canon < prodSize ∧
        r = min canon (prodSize - chunkIndex * canon) ∧ 0 < r) := by
  unfold getSize getOffset
  by_cases h : chunkIndex * canon ≥ prodSize
  · rw [if_pos h]
    refine ⟨by simpa using h, fun _ => rfl, ?_⟩
    intro r hr
    exact absurd hr (by simp)
  · rw [if_neg h]
    simp only [ge_iff_le, not_le] at h
    refine ⟨iff_of_false (by simp) (by omega), fun hz => absurd hz (by omega), ?_⟩
    intro r hr
    simp only [Option.some.injEq] at hr
    rcases Nat.lt_or_ge canon (prodSize - chunkIndex * canon) with hx | hx
    · rw [if_pos hx] at hr
      refine ⟨h, by omega, by omega⟩
    · rw [if_neg (Nat.not_lt.mpr hx)] at hr
      refine ⟨h, by omega, by omega⟩

theorem getSize_offset_guard_witness :
    getSize 32760 0 0 = none :=
  (getSize_offset_guard 32760 0 0 (by decide)).2.1 rfl

/-- C5 counterexample: the claim says the constructor throws whenever
`chunkIndex ≥ ceil(prodSize / canonSize)`; but with the default canonical
size, product size 0 and chunk index 0 we have `0 ≥ ceil(0/32760) = 0`,
and the constructor nevertheless succeeds (the guard is
`chunkIndex && chunkIndex >= numChunks`, so index 0 never throws). -/
theorem chunkInfo_ctor_zero_index_accepted :
    mkChunkInfo defaultCanonSize 7 0 0 = some ⟨7, 0, 0⟩ ∧
    specChunkCount 0 defaultCanonSize = 0 := by decide

/-- C5 (amended): `ChunkInfo::ChunkInfo(prodIndex, prodSize, chunkIndex)`
throws `InvalidArgument` if and only if `chunkIndex` is nonzero and
`chunkIndex ≥ (prodSize + canonSize - 1) / canonSize` (computed in
`uint32_t` arithmetic); equivalently every successfully constructed
ChunkInfo has `chunkIndex = 0` or `chunkIndex < numChunks`. -/
theorem chunkInfo_ctor_guard (canon prodIndex prodSize chunkIndex : Nat) :
    mkChunkInfo canon prodIndex prodSize chunkIndex = none ↔
      (chunkIndex ≠ 0 ∧ numChunks prodSize canon ≤ chunkIndex) := by
  unfold mkChunkInfo
  by_cases h : chunkIndex ≠ 0 ∧ chunkIndex ≥ numChunks prodSize canon
  · rw [if_pos h]
    exact iff_of_true rfl h
  · rw [if_neg h]
    exact iff_of_false (by simp) h

/-- C4 counterexample: with the default canonical chunk size 32760 and the
maximal `uint32` product size 4294967295, the `uint32` computation
`(prodSize + canonSize - 1) / canonSize` wraps around and yields 0,
while `ceil(s/c)` is 131105, so the code's chunk count does not equal
`ceil(s/c)`. -/
theorem chunkCount_overflow_counterexample :
    numChunks 4294967295 defaultCanonSize = 0 ∧
    specChunkCount 4294967295 defaultCanonSize ≠ 0 := by decide

/-- C4 (amended): provided the `uint32` addition `prodSize + canonSize - 1`
does not overflow, the chunk count equals `ceil(s/c)`, every chunk
`i < chunkCount` has `getSize(s, i) = min(c, s - i*c)`, and the chunk
sizes sum to `s`. -/
theorem chunk_layout (s c : Nat) (hc : 0 < c)
    (hov : s + c - 1 < 4294967296) :
    numChunks s c = specChunkCount s c ∧
    (∀ i, i < numChunks s c → getSize c s i = some (min c (s - i * c))) ∧
    (Finset.range (numChunks s c)).sum
        (fun i => (getSize c s i).getD 0) = s := by
  have hnum : numChunks s c = specChunkCount s c := by
    unfold numChunks
    rw [Nat.mod_eq_of_lt hov, specChunkCount_eq s c hc]
  have hsize : ∀ i, i < numChunks s c → getSize c s i = some (min c (s - i * c)) := by
    intro i hi
    rw [hnum] at hi
    have hofs : i * c < s := by
      have h1 : (i + 1) * c ≤ specChunkCount s c * c :=
        Nat.mul_le_mul_right c (by omega)
      have h2 := specChunkCount_mul_lt_add s c hc
      have h3 : (i + 1) * c = i * c + c := Nat.succ_mul i c
      omega
    unfold getSize getOffset
    rw [if_neg (by omega : ¬ i * c ≥ s)]
    congr 1
    rcases Nat.lt_or_ge c (s - i * c) with hx | hx
    · rw [if_pos hx]
      exact (Nat.min_eq_left (Nat.le_of_lt hx)).symm
    · rw [if_neg (Nat.not_lt.mpr hx)]
      exact (Nat.min_eq_right hx).symm
  refine ⟨hnum, hsize, ?_⟩
  have hcongr : (Finset.range (numChunks s c)).sum
        (fun i => (getSize c s i).getD 0)
      = (Finset.range (numChunks s c)).sum (fun i => min c (s - i * c)) := by
    apply Finset.sum_congr rfl
    intro i hi
    rw [hsize i (Finset.mem_range.mp hi)]
    rfl
  rw [hcongr, hnum]
  exact sum_chunk_sizes c hc (specChunkCount s c) s rfl

theorem chunk_layout_witness :
    numChunks 4096 1024 = specChunkCount 4096 1024 :=
  (chunk_layout 4096 1024 (by decide) (by decide)).1

/-- C9: a multicast datagram whose leading message-id byte is neither
`prodInfoMsgId` (1) nor `chunkMsgId` (2) makes the receive loop raise
`RuntimeError("Invalid message type")` instead of processing or silently
dropping it. -/
theorem mcast_invalid_message_type (canon version : Nat)
    (rcvr : LatentChunk → LatentChunk) (msgId : Nat) (body : List Nat)
    (rest : List (List Nat)) (h1 : msgId ≠ prodInfoMsgId)
    (h2 : msgId ≠ chunkMsgId) :
    runMcastReceiver canon version rcvr ((msgId :: body) :: rest) =
      .error .runtimeError := by
  simp [runMcastReceiver, h1, h2]

theorem mcast_invalid_message_type_witness :
    runMcastReceiver 32760 0 id [[3]] = .error .runtimeError :=
  mcast_invalid_message_type 32760 0 id 3 [] [] (by decide) (by decide)

/-- C7: the handshake sends the local protocol version on stream 0, and —
given the remote's head message arrives on the version stream and decodes
to `vers` — construction fails with the unsupported-version error iff
`vers` differs from the local version, and succeeds iff they agree. -/
theorem handshake_version_check (localVersion : Nat) (head : SctpMsg)
    (vers : Nat) (rest : List Nat)
    (hstream : head.streamId = VERSION_STREAM_ID)
    (hdec : VersionMsg.deserialize localVersion head.payload =
      some (vers, rest)) :
    handshakeSends localVersion =
      [(VERSION_STREAM_ID, encode32 localVersion)] ∧
    ((∃ v, handshakeRecv localVersion head =
        .error (.unsupportedVersion v)) ↔ vers ≠ localVersion) ∧
    (handshakeRecv localVersion head = .ok () ↔ vers = localVersion) := by
  refine ⟨rfl, ?_, ?_⟩
  · unfold handshakeRecv
    rw [if_neg (show ¬ head.streamId ≠ VERSION_STREAM_ID by simp [hstream])]
    simp only [hdec]
    by_cases hv : vers = localVersion
    · rw [if_neg (show ¬ vers ≠ localVersion by simp [hv])]
      exact iff_of_false (by simp) (by simp [hv])
    · rw [if_pos hv]
      exact iff_of_true ⟨vers, rfl⟩ hv
  · unfold handshakeRecv
    rw [if_neg (show ¬ head.streamId ≠ VERSION_STREAM_ID by simp [hstream])]
    simp only [hdec]
    by_cases hv : vers = localVersion
    · rw [if_neg (show ¬ vers ≠ localVersion by simp [hv])]
      exact iff_of_true rfl hv
    · rw [if_pos hv]
      exact iff_of_false (by simp) hv

theorem handshake_version_check_witness :
    handshakeRecv 5 ⟨0, encode32 5⟩ = .ok () :=
  (handshake_version_check 5 ⟨0, encode32 5⟩ 5 []
    rfl (by decide)).2.2.mpr rfl

/-! ### Step lemmas for the receive loops -/

theorem runReceiver_zero_size (canon version : Nat)
    (rcvr : LatentChunk → LatentChunk) (msg : SctpMsg) (rest : List SctpMsg)
    (h : msg.payload.length = 0) :
    runReceiver canon version rcvr (msg :: rest) = .ok [] := by
  simp only [runReceiver]
  rw [if_pos h]

theorem runReceiver_step_prodNotice (canon version : Nat)
    (rcvr : LatentChunk → LatentChunk) (msg : SctpMsg) (rest : List SctpMsg)
    (p : ProdInfo) (prest : List Nat)
    (hnz : msg.payload.length ≠ 0)
    (hsid : msg.streamId = PROD_NOTICE_STREAM_ID)
    (hdec : ProdInfo.deserialize version msg.payload = some (p, prest)) :
    runReceiver canon version rcvr (msg :: rest) =
      (runReceiver canon version rcvr rest).map (PeerEvent.noticeProd p :: ·) := by
  simp only [runReceiver]
  rw [if_neg hnz, if_pos hsid]
  simp only [hdec]

theorem runReceiver_step_chunkNotice (canon version : Nat)
    (rcvr : LatentChunk → LatentChunk) (msg : SctpMsg) (rest : List SctpMsg)
    (c : ChunkInfo) (crest : List Nat)
    (hnz : msg.payload.length ≠ 0)
    (hsid : msg.streamId = CHUNK_NOTICE_STREAM_ID)
    (hdec : ChunkInfo.deserialize canon version msg.payload = some (c, crest)) :
    runReceiver canon version rcvr (msg :: rest) =
      (runReceiver canon version rcvr rest).map (PeerEvent.noticeChunk c :: ·) := by
  simp only [runReceiver]
  rw [if_neg hnz, hsid]
  rw [if_neg (by decide : ¬ (CHUNK_NOTICE_STREAM_ID = PROD_NOTICE_STREAM_ID))]
  rw [if_pos (rfl : CHUNK_NOTICE_STREAM_ID = CHUNK_NOTICE_STREAM_ID)]
  simp only [hdec]

theorem runReceiver_step_prodReq (canon version : Nat)
    (rcvr : LatentChunk → LatentChunk) (msg : SctpMsg) (rest : List SctpMsg)
    (i : Nat) (irest : List Nat)
    (hnz : msg.payload.length ≠ 0)
    (hsid : msg.streamId = PROD_REQ_STREAM_ID)
    (hdec : ProdIndex.deserialize version msg.payload = some (i, irest)) :
    runReceiver canon version rcvr (msg :: rest) =
      (runReceiver canon version rcvr rest).map (PeerEvent.requestProd i :: ·) := by
  simp only [runReceiver]
  rw [if_neg hnz, hsid]
  rw [if_neg (by decide : ¬ (PROD_REQ_STREAM_ID = PROD_NOTICE_STREAM_ID))]
  rw [if_neg (by decide : ¬ (PROD_REQ_STREAM_ID = CHUNK_NOTICE_STREAM_ID))]
  rw [if_pos (rfl : PROD_REQ_STREAM_ID = PROD_REQ_STREAM_ID)]
  simp only [hdec]

theorem runReceiver_step_chunkReq (canon version : Nat)
    (rcvr : LatentChunk → LatentChunk) (msg : SctpMsg) (rest : List SctpMsg)
    (c : ChunkInfo) (crest : List Nat)
    (hnz : msg.payload.length ≠ 0)
    (hsid : msg.streamId = CHUNK_REQ_STREAM_ID)
    (hdec : ChunkInfo.deserialize canon version msg.payload = some (c, crest)) :
    runReceiver canon version rcvr (msg :: rest) =
      (runReceiver canon version rcvr rest).map (PeerEvent.requestChunk c :: ·) := by
  simp only [runReceiver]
  rw [if_neg hnz, hsid]
  rw [if_neg (by decide : ¬ (CHUNK_REQ_STREAM_ID = PROD_NOTICE_STREAM_ID))]
  rw [if_neg (by decide : ¬ (CHUNK_REQ_STREAM_ID = CHUNK_NOTICE_STREAM_ID))]
  rw [if_neg (by decide : ¬ (CHUNK_REQ_STREAM_ID = PROD_REQ_STREAM_ID))]
  rw [if_pos (rfl : CHUNK_REQ_STREAM_ID = CHUNK_REQ_STREAM_ID)]
  simp only [hdec]

theorem runReceiver_step_chunk (canon version : Nat)
    (rcvr : LatentChunk → LatentChunk) (msg : SctpMsg) (rest : List SctpMsg)
    (chunk : LatentChunk)
    (hnz : msg.payload.length ≠ 0)
    (hsid : msg.streamId = CHUNK_STREAM_ID)
    (hdec : LatentChunk.deserialize canon version msg.payload = some chunk) :
    runReceiver canon version rcvr (msg :: rest) =
      (if (rcvr chunk).hasData then .error .logicError
       else (runReceiver canon version rcvr rest).map
         (PeerEvent.data chunk :: ·)) := by
  simp only [runReceiver]
  rw [if_neg hnz, hsid]
  rw [if_neg (by decide : ¬ (CHUNK_STREAM_ID = PROD_NOTICE_STREAM_ID))]
  rw [if_neg (by decide : ¬ (CHUNK_STREAM_ID = CHUNK_NOTICE_STREAM_ID))]
  rw [if_neg (by decide : ¬ (CHUNK_STREAM_ID = PROD_REQ_STREAM_ID))]
  rw [if_neg (by decide : ¬ (CHUNK_STREAM_ID = CHUNK_REQ_STREAM_ID))]
  rw [if_pos (rfl : CHUNK_STREAM_ID = CHUNK_STREAM_ID)]
  simp only [hdec]

theorem runReceiver_step_default (canon version : Nat)
    (rcvr : LatentChunk → LatentChunk) (msg : SctpMsg) (rest : List SctpMsg)
    (hnz : msg.payload.length ≠ 0)
    (h1 : msg.streamId ≠ PROD_NOTICE_STREAM_ID)
    (h2 : msg.streamId ≠ CHUNK_NOTICE_STREAM_ID)
    (h3 : msg.streamId ≠ PROD_REQ_STREAM_ID)
    (h4 : msg.streamId ≠ CHUNK_REQ_STREAM_ID)
    (h5 : msg.streamId ≠ CHUNK_STREAM_ID) :
    runReceiver canon version rcvr (msg :: rest) =
      (runReceiver canon version rcvr rest).map (PeerEvent.discarded :: ·) := by
  simp only [runReceiver]
  rw [if_neg hnz, if_neg h1, if_neg h2, if_neg h3, if_neg h4, if_neg h5]

theorem runMcastReceiver_step_chunk (canon version : Nat)
    (rcvr : LatentChunk → LatentChunk) (body : List Nat)
    (drest : List (List Nat)) (dchunk : LatentChunk)
    (hdec : LatentChunk.deserialize canon version body = some dchunk) :
    runMcastReceiver canon version rcvr ((chunkMsgId :: body) :: drest) =
      (if (rcvr dchunk).hasData then .error .logicError
       else (runMcastReceiver canon version rcvr drest).map
         (McastEvent.chunk dchunk :: ·)) := by
  simp only [runMcastReceiver]
  simp only [hdec]
  rw [if_neg (by decide : ¬ (chunkMsgId = prodInfoMsgId))]
  rw [if_pos trivial]

/-- C1: in both receive loops, delivery of a LatentChunk to the upcall is
followed by the `hasData` probe: if the chunk still has data the loop
raises `LogicError`; the loop proceeds past the message (returning
normally at the end) exactly when the upcall left the chunk drained. -/
theorem latent_chunk_drained_or_logicError (canon version : Nat)
    (rcvr : LatentChunk → LatentChunk)
    (msg : SctpMsg) (rest : List SctpMsg) (chunk : LatentChunk)
    (hnz : msg.payload.length ≠ 0)
    (hsid : msg.streamId = CHUNK_STREAM_ID)
    (hdec : LatentChunk.deserialize canon version msg.payload = some chunk)
    (body : List Nat) (drest : List (List Nat)) (dchunk : LatentChunk)
    (hdec2 : LatentChunk.deserialize canon version body = some dchunk) :
    ((rcvr chunk).hasData = true →
        runReceiver canon version rcvr (msg :: rest) = .error .logicError) ∧
    ((rcvr chunk).hasData = false →
        runReceiver canon version rcvr (msg :: rest) =
          (runReceiver canon version rcvr rest).map
            (PeerEvent.data chunk :: ·)) ∧
    ((rcvr dchunk).hasData = true →
        runMcastReceiver canon version rcvr ((chunkMsgId :: body) :: drest) =
          .error .logicError) ∧
    ((rcvr dchunk).hasData = false →
        runMcastReceiver canon version rcvr ((chunkMsgId :: body) :: drest) =
          (runMcastReceiver canon version rcvr drest).map
            (McastEvent.chunk dchunk :: ·)) := by
  refine ⟨?_, ?_, ?_, ?_⟩
  · intro hd
    rw [runReceiver_step_chunk canon version rcvr msg rest chunk hnz hsid hdec,
      if_pos hd]
  · intro hd
    rw [runReceiver_step_chunk canon version rcvr msg rest chunk hnz hsid hdec,
      if_neg (by rw [hd]; exact Bool.false_ne_true)]
  · intro hd
    rw [runMcastReceiver_step_chunk canon version rcvr body drest dchunk hdec2,
      if_pos hd]
  · intro hd
    rw [runMcastReceiver_step_chunk canon version rcvr body drest dchunk hdec2,
      if_neg (by rw [hd]; exact Bool.false_ne_true)]

theorem latent_chunk_drained_or_logicError_witness :
    runReceiver 32760 0 id
      [⟨5, ChunkInfo.serialize 0 ⟨7, 100, 0⟩ ++ [170]⟩] = .error .logicError :=
  (latent_chunk_drained_or_logicError 32760 0 id
    ⟨5, ChunkInfo.serialize 0 ⟨7, 100, 0⟩ ++ [170]⟩ [] ⟨⟨7, 100, 0⟩, [170], true⟩
    (by decide) rfl (by decide)
    (ChunkInfo.serialize 0 ⟨7, 100, 0⟩ ++ [170]) [] ⟨⟨7, 100, 0⟩, [170], true⟩
    (by decide)).1 rfl

/-- C8: the peer transport is opened with exactly 6 streams; the receive
loop returns normally exactly at a zero-size head message (remote close),
dispatches streams 1-5 to the typed upcalls per the fixed layout, and
silently discards messages on any other stream id. -/
theorem peer_receive_dispatch (canon version : Nat)
    (rcvr : LatentChunk → LatentChunk) :
    getNumStreams = 6 ∧
    runReceiver canon version rcvr [] = .ok [] ∧
    (∀ sid rest, runReceiver canon version rcvr (⟨sid, []⟩ :: rest) = .ok []) ∧
    (∀ msg rest p prest, msg.payload.length ≠ 0 →
      msg.streamId = PROD_NOTICE_STREAM_ID →
      ProdInfo.deserialize version msg.payload = some (p, prest) →
      runReceiver canon version rcvr (msg :: rest) =
        (runReceiver canon version rcvr rest).map
          (PeerEvent.noticeProd p :: ·)) ∧
    (∀ msg rest c crest, msg.payload.length ≠ 0 →
      msg.streamId = CHUNK_NOTICE_STREAM_ID →
      ChunkInfo.deserialize canon version msg.payload = some (c, crest) →
      runReceiver canon version rcvr (msg :: rest) =
        (runReceiver canon version rcvr rest).map
          (PeerEvent.noticeChunk c :: ·)) ∧
    (∀ msg rest i irest, msg.payload.length ≠ 0 →
      msg.streamId = PROD_REQ_STREAM_ID →
      ProdIndex.deserialize version msg.payload = some (i, irest) →
      runReceiver canon version rcvr (msg :: rest) =
        (runReceiver canon version rcvr rest).map
          (PeerEvent.requestProd i :: ·)) ∧
    (∀ msg rest c crest, msg.payload.length ≠ 0 →
      msg.streamId = CHUNK_REQ_STREAM_ID →
      ChunkInfo.deserialize canon version msg.payload = some (c, crest) →
      runReceiver canon version rcvr (msg :: rest) =
        (runReceiver canon version rcvr rest).map
          (PeerEvent.requestChunk c :: ·)) ∧
    (∀ msg rest chunk, msg.payload.length ≠ 0 →
      msg.streamId = CHUNK_STREAM_ID →
      LatentChunk.deserialize canon version msg.payload = some chunk →
      (rcvr chunk).hasData = false →
      runReceiver canon version rcvr (msg :: rest) =
        (runReceiver canon version rcvr rest).map
          (PeerEvent.data chunk :: ·)) ∧
    (∀ msg rest, msg.payload.length ≠ 0 →
      msg.streamId ≠ PROD_NOTICE_STREAM_ID →
      msg.streamId ≠ CHUNK_NOTICE_STREAM_ID →
      msg.streamId ≠ PROD_REQ_STREAM_ID →
      msg.streamId ≠ CHUNK_REQ_STREAM_ID →
      msg.streamId ≠ CHUNK_STREAM_ID →
      runReceiver canon version rcvr (msg :: rest) =
        (runReceiver canon version rcvr rest).map
          (PeerEvent.discarded :: ·)) := by
  refine ⟨rfl, rfl, ?_, ?_, ?_, ?_, ?_, ?_, ?_⟩
  · intro sid rest
    exact runReceiver_zero_size canon version rcvr ⟨sid, []⟩ rest rfl
  · intro msg rest p prest hnz hsid hdec
    exact runReceiver_step_prodNotice canon version rcvr msg rest p prest
      hnz hsid hdec
  · intro msg rest c crest hnz hsid hdec
    exact runReceiver_step_chunkNotice canon version rcvr msg rest c crest
      hnz hsid hdec
  · intro msg rest i irest hnz hsid hdec
    exact runReceiver_step_prodReq canon version rcvr msg rest i irest
      hnz hsid hdec
  · intro msg rest c crest hnz hsid hdec
    exact runReceiver_step_chunkReq canon version rcvr msg rest c crest
      hnz hsid hdec
  · intro msg rest chunk hnz hsid hdec hd
    rw [runReceiver_step_chunk canon version rcvr msg rest chunk hnz hsid hdec,
      if_neg (by rw [hd]; exact Bool.false_ne_true)]
  · intro msg rest hnz h1 h2 h3 h4 h5
    exact runReceiver_step_default canon version rcvr msg rest hnz h1 h2 h3 h4 h5

theorem peer_receive_dispatch_witness :
    runReceiver 32760 0 id [⟨9, [1]⟩] =
      (runReceiver 32760 0 id []).map (PeerEvent.discarded :: ·) :=
  (peer_receive_dispatch 32760 0 id).2.2.2.2.2.2.2.2 ⟨9, [1]⟩ []
    (by decide) (by decide) (by decide) (by decide) (by decide) (by decide)

/-- C3: adding a chunk that the store already holds leaves the store state
identical, reports `isDuplicate`, and leaves the latent-chunk handle
empty (the duplicate is discarded, never merged twice). -/
theorem prodStore_duplicate_chunk (s : ProdStore) (ch : LatentChunk)
    (h : s.haveChunk ch.info = true) :
    (s.addChunk ch).1 = s ∧
    (s.addChunk ch).2.1.isDuplicate = true ∧
    (s.addChunk ch).2.2.2.hasData = false := by
  unfold ProdStore.haveChunk at h
  unfold ProdStore.addChunk
  cases he : s ch.info.prodIndex with
  | none => rw [he] at h; simp at h
  | some e =>
      rw [he] at h
      simp only [he]
      rw [if_pos h]
      refine ⟨rfl, ?_, rfl⟩
      cases e.complete <;> simp <;> decide

theorem decode16_encode16_nil (n : Nat) (h : n < 65536) :
    decode16 (encode16 n) = some (n, []) := by
  have := decode16_encode16 n h []
  rwa [List.append_nil] at this

theorem decode32_encode32_nil (n : Nat) (h : n < 4294967296) :
    decode32 (encode32 n) = some (n, []) := by
  have := decode32_encode32 n h []
  rwa [List.append_nil] at this

/-- C6: codec round-trips.  Deserializing the serialization of a ProdIndex,
a VersionMsg, a (valid) ChunkInfo, or a ProdInfo under any protocol
version yields the original value with no bytes left over.  The field
bounds are the `uint32`/`uint16` ranges of the C++ types; the ChunkInfo
must satisfy its constructor invariant, since `ChunkInfo::deserialize`
re-runs the validating constructor. -/
theorem codec_roundtrip (v canon : Nat)
    (idx : Nat) (hidx : idx < 4294967296)
    (ver : Nat) (hver : ver < 4294967296)
    (ci : ChunkInfo) (hci1 : ci.prodIndex < 4294967296)
    (hci2 : ci.prodSize < 4294967296) (hci3 : ci.chunkIndex < 4294967296)
    (hvalid : ci.chunkIndex = 0 ∨ ci.chunkIndex < numChunks ci.prodSize canon)
    (p : ProdInfo) (hp1 : p.name.length < 65536)
    (hp2 : p.prodIndex < 4294967296) (hp3 : p.prodSize < 4294967296)
    (hp4 : p.chunkSize < 65536) :
    ProdIndex.deserialize v (ProdIndex.serialize v idx) = some (idx, []) ∧
    VersionMsg.deserialize v (VersionMsg.serialize v ver) = some (ver, []) ∧
    ChunkInfo.deserialize canon v (ChunkInfo.serialize v ci) = some (ci, []) ∧
    ProdInfo.deserialize v (ProdInfo.serialize v p) = some (p, []) := by
  refine ⟨decode32_encode32_nil idx hidx, decode32_encode32_nil ver hver, ?_, ?_⟩
  · have d1 := decode32_encode32 ci.prodIndex hci1
      (encode32 ci.prodSize ++ encode32 ci.chunkIndex)
    have d2 := decode32_encode32 ci.prodSize hci2 (encode32 ci.chunkIndex)
    have d3 := decode32_encode32_nil ci.chunkIndex hci3
    have hneg : ¬ (ci.chunkIndex ≠ 0 ∧
        ci.chunkIndex ≥ numChunks ci.prodSize canon) := by
      rcases hvalid with h0 | hlt
      · intro hco
        exact hco.1 h0
      · intro hco
        omega
    simp only [ChunkInfo.serialize, ChunkInfo.deserialize, List.append_assoc,
      d1, d2, d3]
    unfold mkChunkInfo
    rw [if_neg hneg]
  · have ds := decodeString_encodeString p.name hp1
      (encode32 p.prodIndex ++ (encode32 p.prodSize ++ encode16 p.chunkSize))
    have d1 := decode32_encode32 p.prodIndex hp2
      (encode32 p.prodSize ++ encode16 p.chunkSize)
    have d2 := decode32_encode32 p.prodSize hp3 (encode16 p.chunkSize)
    have d3 := decode16_encode16_nil p.chunkSize hp4
    simp only [ProdInfo.serialize, ProdInfo.deserialize, List.append_assoc,
      ds, d1, d2, d3]

theorem codec_roundtrip_witness :
    ProdIndex.deserialize 0 (ProdIndex.serialize 0 42) = some (42, []) :=
  (codec_roundtrip 0 32760 42 (by norm_num) 1 (by norm_num)
    ⟨7, 100, 0⟩ (by norm_num) (by norm_num) (by norm_num) (Or.inl rfl)
    ⟨7, [120], 100000, 1400⟩ (by norm_num) (by norm_num) (by norm_num)
    (by norm_num)).1

theorem prodStore_duplicate_chunk_witness :
    (ProdStore.addChunk
        (ProdStore.addChunk (fun _ => none) ⟨⟨1, 100, 0⟩, [170], true⟩).1
        ⟨⟨1, 100, 0⟩, [170], true⟩).2.1.isDuplicate = true :=
  (prodStore_duplicate_chunk
    (ProdStore.addChunk (fun _ => none) ⟨⟨1, 100, 0⟩, [170], true⟩).1
    ⟨⟨1, 100, 0⟩, [170], true⟩ (by decide)).2.1

/-! ### Toward claim C2: properties of sequences of store additions -/

theorem bool_eq_of_iff (a b : Bool) (h : a = true ↔ b = true) : a = b := by
  cases a <;> cases b <;> simp_all

theorem isComplete_init : AddStatus.init.isComplete = false := by decide

theorem isDuplicate_init : AddStatus.init.isDuplicate = false := by decide

theorem isComplete_new : AddStatus.init.setNew.isComplete = false := by decide

theorem isDuplicate_new : AddStatus.init.setNew.isDuplicate = false := by decide

theorem isComplete_newComplete :
    AddStatus.init.setNew.setComplete.isComplete = true := by decide

theorem isDuplicate_newComplete :
    AddStatus.init.setNew.setComplete.isDuplicate = false := by decide

theorem isComplete_complete : AddStatus.init.setComplete.isComplete = true := by
  decide

theorem isDuplicate_complete :
    AddStatus.init.setComplete.isDuplicate = false := by decide

theorem isComplete_dup : AddStatus.init.setDuplicate.isComplete = false := by
  decide

theorem isDuplicate_dup : AddStatus.init.setDuplicate.isDuplicate = true := by
  decide

theorem isComplete_dupComplete :
    AddStatus.init.setDuplicate.setComplete.isComplete = true := by decide

theorem isDuplicate_dupComplete :
    AddStatus.init.setDuplicate.setComplete.isDuplicate = true := by decide

theorem putInfo_mem_fullOps (n : Nat) : StoreOp.putInfo ∈ fullOps n :=
  List.mem_cons_self _ _

theorem putChunk_mem_fullOps (n i : Nat) (hi : i < n) :
    StoreOp.putChunk i ∈ fullOps n :=
  List.mem_cons_of_mem _ (List.mem_map.mpr ⟨i, List.mem_range.mpr hi, rfl⟩)

theorem mem_fullOps_iff (n : Nat) (x : StoreOp) :
    x ∈ fullOps n ↔
      x = StoreOp.putInfo ∨ ∃ i, i < n ∧ x = StoreOp.putChunk i := by
  unfold fullOps
  rw [List.mem_cons]
  constructor
  · intro h
    rcases h with h | h
    · exact Or.inl h
    · rcases List.mem_map.mp h with ⟨i, hi, hx⟩
      exact Or.inr ⟨i, List.mem_range.mp hi, hx.symm⟩
  · intro h
    rcases h with h | ⟨i, hi, hx⟩
    · exact Or.inl h
    · exact Or.inr (List.mem_map.mpr ⟨i, List.mem_range.mpr hi, hx.symm⟩)

theorem fullOps_nodup (n : Nat) : (fullOps n).Nodup := by
  unfold fullOps
  rw [List.nodup_cons]
  constructor
  · intro hmem
    rcases List.mem_map.mp hmem with ⟨i, _, hcontra⟩
    exact StoreOp.noConfusion hcontra
  · exact (List.nodup_range n).map (fun a b h => by injection h)

theorem fullOps_length (n : Nat) : (fullOps n).length = n + 1 := by
  simp [fullOps]

theorem chunksIn_true_iff (info : ProdInfo) (A : List StoreOp) :
    chunksIn info A = true ↔
      ∀ i, i < info.chunkCount → StoreOp.putChunk i ∈ A := by
  unfold chunksIn
  rw [List.all_eq_true]
  constructor
  · intro h i hi
    exact of_decide_eq_true (h i (List.mem_range.mpr hi))
  · intro h i hi
    exact decide_eq_true (h i (List.mem_range.mp hi))

theorem allChunksPresent_true_iff (info : ProdInfo)
    (cd : Nat → Option (List Nat)) :
    allChunksPresent info cd = true ↔
      ∀ i, i < info.chunkCount → (cd i).isSome = true := by
  unfold allChunksPresent
  rw [List.all_eq_true]
  constructor
  · intro h i hi
    exact h i (List.mem_range.mpr hi)
  · intro h i hi
    exact h i (List.mem_range.mp hi)

theorem entryOf_complete_true_iff (info : ProdInfo) (data : Nat → List Nat)
    (A : List StoreOp) :
    (entryOf info data A).complete = true ↔
      (StoreOp.putInfo ∈ A ∧
        ∀ i, i < info.chunkCount → StoreOp.putChunk i ∈ A) := by
  show (decide (StoreOp.putInfo ∈ A) && chunksIn info A) = true ↔ _
  rw [Bool.and_eq_true, chunksIn_true_iff]
  simp

theorem entryOf_chunkData_isSome (info : ProdInfo) (data : Nat → List Nat)
    (A : List StoreOp) (j : Nat) :
    ((entryOf info data A).chunkData j).isSome = true ↔
      StoreOp.putChunk j ∈ A := by
  show (if StoreOp.putChunk j ∈ A then some (data j) else none).isSome = true ↔ _
  by_cases h : StoreOp.putChunk j ∈ A
  · rw [if_pos h]
    simp [h]
  · rw [if_neg h]
    simp [h]

theorem allChunksPresent_entryOf (info : ProdInfo) (data : Nat → List Nat)
    (A : List StoreOp) :
    allChunksPresent info (entryOf info data A).chunkData = chunksIn info A := by
  apply bool_eq_of_iff
  rw [allChunksPresent_true_iff, chunksIn_true_iff]
  constructor
  · intro h i hi
    exact (entryOf_chunkData_isSome info data A i).mp (h i hi)
  · intro h i hi
    exact (entryOf_chunkData_isSome info data A i).mpr (h i hi)

theorem entryOf_congr (info : ProdInfo) (data : Nat → List Nat)
    (A B : List StoreOp) (h : ∀ x, x ∈ A ↔ x ∈ B) :
    entryOf info data A = entryOf info data B := by
  unfold entryOf
  congr 1
  · exact if_congr (h StoreOp.putInfo) rfl rfl
  · funext j
    exact if_congr (h (StoreOp.putChunk j)) rfl rfl
  · apply bool_eq_of_iff
    rw [Bool.and_eq_true, Bool.and_eq_true, chunksIn_true_iff, chunksIn_true_iff]
    constructor
    · intro hh
      exact ⟨decide_eq_true ((h _).mp (of_decide_eq_true hh.1)),
        fun i hi => (h _).mp (hh.2 i hi)⟩
    · intro hh
      exact ⟨decide_eq_true ((h _).mpr (of_decide_eq_true hh.1)),
        fun i hi => (h _).mpr (hh.2 i hi)⟩

theorem chunkData_cons_putInfo (info : ProdInfo) (data : Nat → List Nat)
    (A : List StoreOp) :
    (entryOf info data (StoreOp.putInfo :: A)).chunkData
      = (entryOf info data A).chunkData := by
  funext j
  show (if StoreOp.putChunk j ∈ StoreOp.putInfo :: A then some (data j) else none)
    = (if StoreOp.putChunk j ∈ A then some (data j) else none)
  by_cases h : StoreOp.putChunk j ∈ A
  · rw [if_pos (List.mem_cons_of_mem _ h), if_pos h]
  · rw [if_neg ?_, if_neg h]
    intro hx
    rcases List.mem_cons.mp hx with hx | hx
    · exact StoreOp.noConfusion hx
    · exact h hx

theorem chunkData_cons_putChunk (info : ProdInfo) (data : Nat → List Nat)
    (A : List StoreOp) (i : Nat) :
    (fun j => if j = i then some (data i)
              else (entryOf info data A).chunkData j)
      = (entryOf info data (StoreOp.putChunk i :: A)).chunkData := by
  funext j
  show (if j = i then some (data i)
        else if StoreOp.putChunk j ∈ A then some (data j) else none)
    = (if StoreOp.putChunk j ∈ StoreOp.putChunk i :: A then some (data j) else none)
  by_cases hj : j = i
  · subst hj
    rw [if_pos rfl, if_pos (List.mem_cons_self _ _)]
  · rw [if_neg hj]
    by_cases h : StoreOp.putChunk j ∈ A
    · rw [if_pos h, if_pos (List.mem_cons_of_mem _ h)]
    · rw [if_neg h, if_neg ?_]
      intro hx
      rcases List.mem_cons.mp hx with hx | hx
      · exact hj (by injection hx)
      · exact h hx

theorem createInfo_entry (info : ProdInfo) (data : Nat → List Nat) :
    (⟨some info, fun _ => none, allChunksPresent info (fun _ => none)⟩ :
        ProdEntry)
      = entryOf info data [StoreOp.putInfo] := by
  have hcd : (fun _ => none)
      = (entryOf info data [StoreOp.putInfo]).chunkData := by
    funext j
    show (none : Option (List Nat))
      = if StoreOp.putChunk j ∈ [StoreOp.putInfo] then some (data j) else none
    rw [if_neg ?_]
    intro hx
    rcases List.mem_singleton.mp hx with hx
    exact StoreOp.noConfusion hx
  have hinfo : (entryOf info data [StoreOp.putInfo]).info = some info := by
    show (if StoreOp.putInfo ∈ [StoreOp.putInfo] then some info else none)
      = some info
    exact if_pos (List.mem_singleton_self _)
  have hcmpl : allChunksPresent info (fun _ => none)
      = (entryOf info data [StoreOp.putInfo]).complete := by
    rw [hcd, allChunksPresent_entryOf]
    show chunksIn info [StoreOp.putInfo]
      = (decide (StoreOp.putInfo ∈ [StoreOp.putInfo])
          && chunksIn info [StoreOp.putInfo])
    rw [decide_eq_true (List.mem_singleton_self _), Bool.true_and]
  cases hE : entryOf info data [StoreOp.putInfo] with
  | mk einfo ecd ecmpl =>
      rw [hE] at hcd hinfo hcmpl
      simp only at hcd hinfo hcmpl
      rw [hcmpl, hcd, hinfo]

theorem mergeInfo_entry (info : ProdInfo) (data : Nat → List Nat)
    (A : List StoreOp) :
    (⟨some info, (entryOf info data A).chunkData,
        allChunksPresent info (entryOf info data A).chunkData⟩ : ProdEntry)
      = entryOf info data (StoreOp.putInfo :: A) := by
  have hcd := (chunkData_cons_putInfo info data A).symm
  have hinfo : (entryOf info data (StoreOp.putInfo :: A)).info = some info := by
    show (if StoreOp.putInfo ∈ StoreOp.putInfo :: A then some info else none)
      = some info
    exact if_pos (List.mem_cons_self _ _)
  have hcmpl : allChunksPresent info (entryOf info data A).chunkData
      = (entryOf info data (StoreOp.putInfo :: A)).complete := by
    rw [allChunksPresent_entryOf]
    apply bool_eq_of_iff
    rw [chunksIn_true_iff, entryOf_complete_true_iff]
    constructor
    · intro h
      refine ⟨List.mem_cons_self _ _, fun i hi => List.mem_cons_of_mem _ (h i hi)⟩
    · intro h i hi
      rcases List.mem_cons.mp (h.2 i hi) with hx | hx
      · exact absurd hx (fun hx => StoreOp.noConfusion hx)
      · exact hx
  cases hE : entryOf info data (StoreOp.putInfo :: A) with
  | mk einfo ecd ecmpl =>
      rw [hE] at hcd hinfo hcmpl
      simp only at hcd hinfo hcmpl
      rw [hcmpl, hcd, hinfo]

theorem createChunk_entry (info : ProdInfo) (data : Nat → List Nat) (i : Nat) :
    (⟨none, fun j => if j = i then some (data i) else none, false⟩ : ProdEntry)
      = entryOf info data [StoreOp.putChunk i] := by
  have hcd : (fun j => if j = i then some (data i) else none)
      = (entryOf info data [StoreOp.putChunk i]).chunkData := by
    funext j
    show (if j = i then some (data i) else none)
      = if StoreOp.putChunk j ∈ [StoreOp.putChunk i] then some (data j) else none
    by_cases hj : j = i
    · subst hj
      rw [if_pos rfl, if_pos (List.mem_singleton_self _)]
    · rw [if_neg hj, if_neg ?_]
      intro hx
      exact hj (by injection List.mem_singleton.mp hx)
  have hinfo : (entryOf info data [StoreOp.putChunk i]).info = none := by
    show (if StoreOp.putInfo ∈ [StoreOp.putChunk i] then some info else none)
      = none
    rw [if_neg ?_]
    intro hx
    exact StoreOp.noConfusion (List.mem_singleton.mp hx)
  have hcmpl : (false : Bool)
      = (entryOf info data [StoreOp.putChunk i]).complete := by
    show (false : Bool)
      = (decide (StoreOp.putInfo ∈ [StoreOp.putChunk i])
          && chunksIn info [StoreOp.putChunk i])
    rw [decide_eq_false ?_, Bool.false_and]
    intro hx
    exact StoreOp.noConfusion (List.mem_singleton.mp hx)
  cases hE : entryOf info data [StoreOp.putChunk i] with
  | mk einfo ecd ecmpl =>
      rw [hE] at hcd hinfo hcmpl
      simp only at hcd hinfo hcmpl
      rw [hcmpl, hcd, hinfo]

theorem mergeChunk_entry_info (info : ProdInfo) (data : Nat → List Nat)
    (A : List StoreOp) (i : Nat) (hmem : StoreOp.putInfo ∈ A) :
    (⟨some info,
        fun j => if j = i then some (data i)
                 else (entryOf info data A).chunkData j,
        allChunksPresent info
          (fun j => if j = i then some (data i)
                    else (entryOf info data A).chunkData j)⟩ : ProdEntry)
      = entryOf info data (StoreOp.putChunk i :: A) := by
  have hcd := chunkData_cons_putChunk info data A i
  have hinfo : (entryOf info data (StoreOp.putChunk i :: A)).info
      = some info := by
    show (if StoreOp.putInfo ∈ StoreOp.putChunk i :: A then some info else none)
      = some info
    exact if_pos (List.mem_cons_of_mem _ hmem)
  have hcmpl : allChunksPresent info
        (fun j => if j = i then some (data i)
                  else (entryOf info data A).chunkData j)
      = (entryOf info data (StoreOp.putChunk i :: A)).complete := by
    rw [hcd, allChunksPresent_entryOf]
    show chunksIn info (StoreOp.putChunk i :: A)
      = (decide (StoreOp.putInfo ∈ StoreOp.putChunk i :: A)
          && chunksIn info (StoreOp.putChunk i :: A))
    rw [decide_eq_true (List.mem_cons_of_mem _ hmem), Bool.true_and]
  cases hE : entryOf info data (StoreOp.putChunk i :: A) with
  | mk einfo ecd ecmpl =>
      rw [hE] at hcd hinfo hcmpl
      simp only at hcd hinfo hcmpl
      rw [hcmpl, hcd, hinfo]

theorem mergeChunk_entry_noinfo (info : ProdInfo) (data : Nat → List Nat)
    (A : List StoreOp) (i : Nat) (hmem : StoreOp.putInfo ∉ A) :
    (⟨none,
        fun j => if j = i then some (data i)
                 else (entryOf info data A).chunkData j,
        false⟩ : ProdEntry)
      = entryOf info data (StoreOp.putChunk i :: A) := by
  have hnotin : StoreOp.putInfo ∉ StoreOp.putChunk i :: A := by
    intro hx
    rcases List.mem_cons.mp hx with hx | hx
    · exact StoreOp.noConfusion hx
    · exact hmem hx
  have hcd := chunkData_cons_putChunk info data A i
  have hinfo : (entryOf info data (StoreOp.putChunk i :: A)).info = none := by
    show (if StoreOp.putInfo ∈ StoreOp.putChunk i :: A then some info else none)
      = none
    exact if_neg hnotin
  have hcmpl : (false : Bool)
      = (entryOf info data (StoreOp.putChunk i :: A)).complete := by
    show (false : Bool)
      = (decide (StoreOp.putInfo ∈ StoreOp.putChunk i :: A)
          && chunksIn info (StoreOp.putChunk i :: A))
    rw [decide_eq_false hnotin, Bool.false_and]
  cases hE : entryOf info data (StoreOp.putChunk i :: A) with
  | mk einfo ecd ecmpl =>
      rw [hE] at hcd hinfo hcmpl
      simp only at hcd hinfo hcmpl
      rw [hcmpl, hcd, hinfo]

theorem createParts (b : Bool) (stT stF : AddStatus) (eo : ProdEntry)
    (hT : stT.isComplete = true) (hF : stF.isComplete = false)
    (hTd : stT.isDuplicate = false) (hFd : stF.isDuplicate = false) :
    ((if b then stT else stF).isComplete = b) ∧
    ((if b then stT else stF).isDuplicate = false) ∧
    ((if b then some eo else none).isSome = b) := by
  cases b <;> simp_all

/-- Applying a fresh addition (not yet in the applied set `A`) updates the
product's entry from `entryOf A` to `entryOf (op :: A)`; the reported
status is complete exactly when the new set is, never a duplicate; and the
`prod` out-parameter is set exactly when the entry became complete. -/
theorem applyOp_fresh (info : ProdInfo) (data : Nat → List Nat)
    (A : List StoreOp) (op : StoreOp) (s : ProdStore)
    (hsA : s info.prodIndex = entryState info data A)
    (hop : op ∈ fullOps info.chunkCount)
    (hnotin : op ∉ A) :
    (applyOp info data s op).1
      = ProdStore.update s info.prodIndex (entryOf info data (op :: A)) ∧
    (applyOp info data s op).2.1.isComplete
      = (entryOf info data (op :: A)).complete ∧
    (applyOp info data s op).2.1.isDuplicate = false ∧
    (applyOp info data s op).2.2.isSome
      = (entryOf info data (op :: A)).complete := by
  cases op with
  | putInfo =>
    by_cases hA : A = []
    · subst hA
      have hs0 : s info.prodIndex = none := by
        simpa [entryState] using hsA
      have he := createInfo_entry info data
      have hcmpl : allChunksPresent info (fun _ => none)
          = (entryOf info data [StoreOp.putInfo]).complete :=
        congrArg ProdEntry.complete he
      refine ⟨?_, ?_, ?_, ?_⟩
      · simp only [applyOp, ProdStore.addProdInfo, hs0]
        exact congrArg (ProdStore.update s info.prodIndex) he
      · simp only [applyOp, ProdStore.addProdInfo, hs0]
        rw [hcmpl]
        exact (createParts _ _ _ (entryOf info data [StoreOp.putInfo])
          isComplete_newComplete isComplete_new
          isDuplicate_newComplete isDuplicate_new).1
      · simp only [applyOp, ProdStore.addProdInfo, hs0]
        rw [hcmpl]
        exact (createParts _ _ _ (entryOf info data [StoreOp.putInfo])
          isComplete_newComplete isComplete_new
          isDuplicate_newComplete isDuplicate_new).2.1
      · simp only [applyOp, ProdStore.addProdInfo, hs0]
        rw [hcmpl]
        exact (createParts ((entryOf info data [StoreOp.putInfo]).complete)
          AddStatus.init.setNew.setComplete AddStatus.init.setNew _
          isComplete_newComplete isComplete_new
          isDuplicate_newComplete isDuplicate_new).2.2
    · have hsE : s info.prodIndex = some (entryOf info data A) := by
        rw [hsA]
        unfold entryState
        rw [if_neg hA]
      have hinfoA : (entryOf info data A).info = none := by
        show (if StoreOp.putInfo ∈ A then some info else none) = none
        exact if_neg hnotin
      have he := mergeInfo_entry info data A
      have hcmpl : allChunksPresent info (entryOf info data A).chunkData
          = (entryOf info data (StoreOp.putInfo :: A)).complete :=
        congrArg ProdEntry.complete he
      refine ⟨?_, ?_, ?_, ?_⟩
      · simp only [applyOp, ProdStore.addProdInfo, hsE, hinfoA]
        exact congrArg (ProdStore.update s info.prodIndex) he
      · simp only [applyOp, ProdStore.addProdInfo, hsE, hinfoA]
        rw [hcmpl]
        exact (createParts _ _ _ (entryOf info data (StoreOp.putInfo :: A))
          isComplete_complete isComplete_init
          isDuplicate_complete isDuplicate_init).1
      · simp only [applyOp, ProdStore.addProdInfo, hsE, hinfoA]
        rw [hcmpl]
        exact (createParts _ _ _ (entryOf info data (StoreOp.putInfo :: A))
          isComplete_complete isComplete_init
          isDuplicate_complete isDuplicate_init).2.1
      · simp only [applyOp, ProdStore.addProdInfo, hsE, hinfoA]
        rw [hcmpl]
        exact (createParts ((entryOf info data (StoreOp.putInfo :: A)).complete)
          AddStatus.init.setComplete AddStatus.init _
          isComplete_complete isComplete_init
          isDuplicate_complete isDuplicate_init).2.2
  | putChunk i =>
    have hi : i < info.chunkCount := by
      rcases (mem_fullOps_iff _ _).mp hop with h | ⟨j, hj, hx⟩
      · exact StoreOp.noConfusion h
      · have hij : i = j := by injection hx
        rw [hij]
        exact hj
    by_cases hA : A = []
    · subst hA
      have hs0 : s info.prodIndex = none := by
        simpa [entryState] using hsA
      have he := createChunk_entry info data i
      have hcmpl : (false : Bool)
          = (entryOf info data [StoreOp.putChunk i]).complete :=
        congrArg ProdEntry.complete he
      refine ⟨?_, ?_, ?_, ?_⟩
      · simp only [applyOp, ProdStore.addChunk, mkChunk, LatentChunk.drainData,
          hs0]
        exact congrArg (ProdStore.update s info.prodIndex) he
      · simp only [applyOp, ProdStore.addChunk, mkChunk, LatentChunk.drainData,
          hs0]
        rw [isComplete_new]
        exact hcmpl
      · simp only [applyOp, ProdStore.addChunk, mkChunk, LatentChunk.drainData,
          hs0]
        exact isDuplicate_new
      · simp only [applyOp, ProdStore.addChunk, mkChunk, LatentChunk.drainData,
          hs0]
        rw [← hcmpl]
        rfl
    · have hsE : s info.prodIndex = some (entryOf info data A) := by
        rw [hsA]
        unfold entryState
        rw [if_neg hA]
      have hbit : ((entryOf info data A).chunkData i).isSome = false := by
        cases hIs : ((entryOf info data A).chunkData i).isSome with
        | false => rfl
        | true =>
            exact absurd ((entryOf_chunkData_isSome info data A i).mp hIs)
              hnotin
      by_cases hInfoA : StoreOp.putInfo ∈ A
      · have hinfoA : (entryOf info data A).info = some info := by
          show (if StoreOp.putInfo ∈ A then some info else none) = some info
          exact if_pos hInfoA
        have he := mergeChunk_entry_info info data A i hInfoA
        have hcmpl : allChunksPresent info
              (fun j => if j = i then some (data i)
                        else (entryOf info data A).chunkData j)
            = (entryOf info data (StoreOp.putChunk i :: A)).complete :=
          congrArg ProdEntry.complete he
        refine ⟨?_, ?_, ?_, ?_⟩
        · simp only [applyOp, ProdStore.addChunk, mkChunk,
            LatentChunk.drainData, hsE, hbit, Bool.false_eq_true, if_false,
            hinfoA]
          rw [if_pos hi]
          exact congrArg (ProdStore.update s info.prodIndex) he
        · simp only [applyOp, ProdStore.addChunk, mkChunk,
            LatentChunk.drainData, hsE, hbit, Bool.false_eq_true, if_false,
            hinfoA]
          rw [if_pos hi, hcmpl]
          exact (createParts _ _ _
            (entryOf info data (StoreOp.putChunk i :: A))
            isComplete_complete isComplete_init
            isDuplicate_complete isDuplicate_init).1
        · simp only [applyOp, ProdStore.addChunk, mkChunk,
            LatentChunk.drainData, hsE, hbit, Bool.false_eq_true, if_false,
            hinfoA]
          rw [if_pos hi, hcmpl]
          exact (createParts _ _ _
            (entryOf info data (StoreOp.putChunk i :: A))
            isComplete_complete isComplete_init
            isDuplicate_complete isDuplicate_init).2.1
        · simp only [applyOp, ProdStore.addChunk, mkChunk,
            LatentChunk.drainData, hsE, hbit, Bool.false_eq_true, if_false,
            hinfoA]
          rw [if_pos hi, hcmpl]
          exact (createParts
            ((entryOf info data (StoreOp.putChunk i :: A)).complete)
            AddStatus.init.setComplete AddStatus.init _
            isComplete_complete isComplete_init
            isDuplicate_complete isDuplicate_init).2.2
      · have hinfoA : (entryOf info data A).info = none := by
          show (if StoreOp.putInfo ∈ A then some info else none) = none
          exact if_neg hInfoA
        have he := mergeChunk_entry_noinfo info data A i hInfoA
        have hcmpl : (false : Bool)
            = (entryOf info data (StoreOp.putChunk i :: A)).complete :=
          congrArg ProdEntry.complete he
        refine ⟨?_, ?_, ?_, ?_⟩
        · simp only [applyOp, ProdStore.addChunk, mkChunk,
            LatentChunk.drainData, hsE, hbit, Bool.false_eq_true, if_false,
            hinfoA]
          exact congrArg (ProdStore.update s info.prodIndex) he
        · simp only [applyOp, ProdStore.addChunk, mkChunk,
            LatentChunk.drainData, hsE, hbit, Bool.false_eq_true, if_false,
            hinfoA]
          rw [isComplete_init]
          exact hcmpl
        · simp only [applyOp, ProdStore.addChunk, mkChunk,
            LatentChunk.drainData, hsE, hbit, Bool.false_eq_true, if_false,
            hinfoA]
          exact isDuplicate_init
        · simp only [applyOp, ProdStore.addChunk, mkChunk,
            LatentChunk.drainData, hsE, hbit, Bool.false_eq_true, if_false,
            hinfoA]
          rw [← hcmpl]
          rfl

theorem applyOps_append (info : ProdInfo) (data : Nat → List Nat)
    (l1 l2 : List StoreOp) : ∀ s : ProdStore,
    applyOps info data s (l1 ++ l2)
      = applyOps info data (applyOps info data s l1) l2 := by
  induction l1 with
  | nil => intro s; rfl
  | cons op l ih =>
      intro s
      simp only [List.cons_append, applyOps]
      exact ih _

/-- After applying a duplicate-free batch `P` of additions on top of an
already-applied set `A`, the product's entry is exactly `entryOf (P ++ A)`. -/
theorem applyOps_accum (info : ProdInfo) (data : Nat → List Nat) :
    ∀ (P A : List StoreOp) (s : ProdStore),
      (A ++ P).Nodup →
      (∀ x ∈ A ++ P, x ∈ fullOps info.chunkCount) →
      s info.prodIndex = entryState info data A →
      (applyOps info data s P) info.prodIndex
        = entryState info data (P ++ A) := by
  intro P
  induction P with
  | nil =>
      intro A s hnd hsub hsA
      exact hsA
  | cons op P2 ih =>
      intro A s hnd hsub hsA
      have hopA : op ∉ A := by
        intro hx
        rcases List.nodup_append.mp hnd with ⟨_, _, hdisj⟩
        exact hdisj hx (List.mem_cons_self _ _)
      have hop : op ∈ fullOps info.chunkCount :=
        hsub op (List.mem_append_right _ (List.mem_cons_self _ _))
      have hstep := applyOp_fresh info data A op s hsA hop hopA
      have hnd2 : ((op :: A) ++ P2).Nodup := List.nodup_middle.mp hnd
      have hsub2 : ∀ x ∈ (op :: A) ++ P2, x ∈ fullOps info.chunkCount := by
        intro x hx
        apply hsub
        rcases List.mem_cons.mp hx with hx | hx
        · subst hx
          exact List.mem_append_right _ (List.mem_cons_self _ _)
        · rcases List.mem_append.mp hx with hx | hx
          · exact List.mem_append_left _ hx
          · exact List.mem_append_right _ (List.mem_cons_of_mem _ hx)
      have hs2 : (applyOp info data s op).1 info.prodIndex
          = entryState info data (op :: A) := by
        rw [hstep.1]
        unfold ProdStore.update
        rw [if_pos rfl]
        unfold entryState
        rw [if_neg (List.cons_ne_nil _ _)]
      have hres := ih (op :: A) (applyOp info data s op).1 hnd2 hsub2 hs2
      show (applyOps info data (applyOp info data s op).1 P2) info.prodIndex = _
      rw [hres]
      unfold entryState
      rw [if_neg (by simp), if_neg (by simp)]
      refine congrArg some (entryOf_congr info data _ _ ?_)
      intro x
      simp only [List.mem_append, List.mem_cons]
      tauto

/-- Re-adding an element already in the entry's applied set is a duplicate:
the store is unchanged and the status reports `isDuplicate`, plus
`isComplete` exactly when the entry is complete. -/
theorem applyOp_duplicate (info : ProdInfo) (data : Nat → List Nat)
    (E : List StoreOp) (op : StoreOp) (s : ProdStore)
    (hsE : s info.prodIndex = some (entryOf info data E))
    (hmem : op ∈ E) :
    (applyOp info data s op).1 = s ∧
    (applyOp info data s op).2.1.isComplete
      = (entryOf info data E).complete ∧
    (applyOp info data s op).2.1.isDuplicate = true := by
  cases op with
  | putInfo =>
      have hinfoE : (entryOf info data E).info = some info := by
        show (if StoreOp.putInfo ∈ E then some info else none) = some info
        exact if_pos hmem
      refine ⟨?_, ?_, ?_⟩
      · simp only [applyOp, ProdStore.addProdInfo, hsE, hinfoE]
      · simp only [applyOp, ProdStore.addProdInfo, hsE, hinfoE]
        cases hb : (entryOf info data E).complete <;> simp <;> decide
      · simp only [applyOp, ProdStore.addProdInfo, hsE, hinfoE]
        cases hb : (entryOf info data E).complete <;> simp <;> decide
  | putChunk i =>
      have hbit : ((entryOf info data E).chunkData i).isSome = true :=
        (entryOf_chunkData_isSome info data E i).mpr hmem
      refine ⟨?_, ?_, ?_⟩
      · simp only [applyOp, ProdStore.addChunk, mkChunk, hsE, hbit, if_true]
      · simp only [applyOp, ProdStore.addChunk, mkChunk, hsE, hbit, if_true]
        cases hb : (entryOf info data E).complete <;> simp <;> decide
      · simp only [applyOp, ProdStore.addChunk, mkChunk, hsE, hbit, if_true]
        cases hb : (entryOf info data E).complete <;> simp <;> decide

/-- C2: add a product's ProdInfo and all of its chunks in any order
(`ops` is any permutation of the full set).  The entry ends complete; the
add at each position reports `isComplete` — and sets the `prod`
out-parameter — exactly when it is the last one (the transition to
complete happens exactly once); no add in the sequence is a duplicate; and
every subsequent add for the product leaves the store unchanged and
reports both `isComplete` and `isDuplicate`. -/
theorem prodStore_completion_once (info : ProdInfo) (data : Nat → List Nat)
    (s : ProdStore) (ops : List StoreOp)
    (hs : s info.prodIndex = none)
    (hperm : ops.Perm (fullOps info.chunkCount)) :
    (∃ e, (applyOps info data s ops) info.prodIndex = some e ∧
      e.complete = true) ∧
    (∀ pre op post, ops = pre ++ op :: post →
      ((applyOp info data (applyOps info data s pre) op).2.1.isComplete = true
        ↔ post = []) ∧
      (applyOp info data (applyOps info data s pre) op).2.1.isDuplicate
        = false ∧
      ((applyOp info data (applyOps info data s pre) op).2.2.isSome = true
        ↔ post = [])) ∧
    (∀ op, op ∈ fullOps info.chunkCount →
      (applyOp info data (applyOps info data s ops) op).1
          = applyOps info data s ops ∧
      (applyOp info data (applyOps info data s ops) op).2.1.isComplete
          = true ∧
      (applyOp info data (applyOps info data s ops) op).2.1.isDuplicate
          = true) := by
  have hnodup : ops.Nodup := (hperm.nodup_iff).mpr (fullOps_nodup _)
  have hmemiff : ∀ x, x ∈ ops ↔ x ∈ fullOps info.chunkCount :=
    fun x => hperm.mem_iff
  have hlen : ops.length = info.chunkCount + 1 :=
    hperm.length_eq.trans (fullOps_length _)
  have hopsne : ops ≠ [] := by
    intro h
    rw [h] at hlen
    simp at hlen
  have hs0 : s info.prodIndex = entryState info data [] := hs
  have hfinal : (applyOps info data s ops) info.prodIndex
      = entryState info data (ops ++ []) :=
    applyOps_accum info data ops [] s (by simpa using hnodup)
      (by simpa using fun x hx => (hmemiff x).mp hx) hs0
  rw [List.append_nil] at hfinal
  have hfinal2 : (applyOps info data s ops) info.prodIndex
      = some (entryOf info data ops) := by
    rw [hfinal]
    unfold entryState
    rw [if_neg hopsne]
  have hcompl : (entryOf info data ops).complete = true :=
    (entryOf_complete_true_iff info data ops).mpr
      ⟨(hmemiff _).mpr (putInfo_mem_fullOps _),
        fun i hi => (hmemiff _).mpr (putChunk_mem_fullOps _ i hi)⟩
  refine ⟨⟨entryOf info data ops, hfinal2, hcompl⟩, ?_, ?_⟩
  · intro pre op post heq
    have hnd2 : (pre ++ op :: post).Nodup := heq ▸ hnodup
    rcases List.nodup_append.mp hnd2 with ⟨hpre_nodup, _, hdisj⟩
    have hop_notin : op ∉ pre := fun hx => hdisj hx (List.mem_cons_self _ _)
    have hpre_sub : ∀ x ∈ pre, x ∈ fullOps info.chunkCount := by
      intro x hx
      apply (hmemiff x).mp
      rw [heq]
      exact List.mem_append_left _ hx
    have hop_full : op ∈ fullOps info.chunkCount := by
      apply (hmemiff op).mp
      rw [heq]
      exact List.mem_append_right _ (List.mem_cons_self _ _)
    have hsp : (applyOps info data s pre) info.prodIndex
        = entryState info data (pre ++ []) :=
      applyOps_accum info data pre [] s (by simpa using hpre_nodup)
        (by simpa using hpre_sub) hs0
    rw [List.append_nil] at hsp
    have hstep := applyOp_fresh info data pre op
      (applyOps info data s pre) hsp hop_full hop_notin
    have hcomplIff : (entryOf info data (op :: pre)).complete = true
        ↔ post = [] := by
      constructor
      · intro hc
        rcases (entryOf_complete_true_iff info data (op :: pre)).mp hc
          with ⟨hc1, hc2⟩
        have hfull_sub : fullOps info.chunkCount ⊆ op :: pre := by
          intro x hx
          rcases (mem_fullOps_iff _ x).mp hx with hx0 | ⟨j, hj, hx0⟩
          · subst hx0
            exact hc1
          · subst hx0
            exact hc2 j hj
        have hle : (fullOps info.chunkCount).length ≤ (op :: pre).length :=
          (List.subperm_of_subset (fullOps_nodup _) hfull_sub).length_le
      -- lengths force the suffix to be empty
        rw [fullOps_length] at hle
        have hlen2 : ops.length = pre.length + post.length + 1 := by
          rw [heq]
          simp [List.length_append]
          omega
        have hpost0 : post.length = 0 := by
          simp only [List.length_cons] at hle
          omega
        exact List.eq_nil_of_length_eq_zero hpost0
      · intro hpost
        subst hpost
        apply (entryOf_complete_true_iff info data (op :: pre)).mpr
        have hmemeq : ∀ x, x ∈ op :: pre ↔ x ∈ ops := by
          intro x
          rw [heq]
          simp only [List.mem_append, List.mem_cons, List.mem_singleton]
          tauto
        exact ⟨(hmemeq _).mpr ((hmemiff _).mpr (putInfo_mem_fullOps _)),
          fun i hi => (hmemeq _).mpr ((hmemiff _).mpr
            (putChunk_mem_fullOps _ i hi))⟩
    refine ⟨?_, hstep.2.2.1, ?_⟩
    · rw [hstep.2.1]
      exact hcomplIff
    · rw [hstep.2.2.2]
      exact hcomplIff
  · intro op hop
    have hdup := applyOp_duplicate info data ops op
      (applyOps info data s ops) hfinal2 ((hmemiff op).mpr hop)
    exact ⟨hdup.1, hdup.2.1.trans hcompl, hdup.2.2⟩

theorem prodStore_completion_once_witness :
    ∃ e, (applyOps ⟨1, [], 2048, 1024⟩ (fun _ => []) (fun _ => none)
        (fullOps 2)) 1 = some e ∧ e.complete = true :=
  (prodStore_completion_once ⟨1, [], 2048, 1024⟩ (fun _ => [])
    (fun _ => none) (fullOps 2) rfl (by decide)).1

end hycast
